import Mathlib

/-!
Shallow embedding of the Adminis Locuințe API client
(`custom_components/adminislocuinte/api.py`) and proofs of the
specification's claims about it.

Strings are modelled as `List Char`; HTTP/network effects are modelled by
explicit environments describing the upstream responses, a transport or
parse failure being `Except.error ()`.  Parsed JSON bodies are modelled by
the inductive `JValue`; Python floats by `ℚ` (all amounts in play are
decimal literals, which `ℚ` represents exactly).
-/

set_option maxHeartbeats 1000000

abbrev Str := List Char

/-- First occurrence of `sep` in `xs`: returns `(before, after)` split around
the first occurrence, `none` if `sep` does not occur.  (For nonempty `sep`
this is Python substring search.) -/
def firstSplit (sep : Str) : Str → Option (Str × Str)
  | [] => if sep.isPrefixOf ([] : Str) then some ([], []) else none
  | c :: t =>
    if sep.isPrefixOf (c :: t) then some ([], (c :: t).drop sep.length)
    else (firstSplit sep t).map (fun p => (c :: p.1, p.2))

/-- Python `sep in xs` (substring containment). -/
def containsSub (sep xs : Str) : Bool := (firstSplit sep xs).isSome

/-- Everything after the first occurrence of `sep` (Python `xs.split(sep)[1:]`
rejoined); `[]` when `sep` does not occur. -/
def afterFirst (sep xs : Str) : Str :=
  match firstSplit sep xs with
  | none => []
  | some p => p.2

/-- Everything before the first occurrence of `sep`; all of `xs` when `sep`
does not occur (Python `xs.split(sep)[0]`). -/
def beforeFirst (sep xs : Str) : Str :=
  match firstSplit sep xs with
  | none => xs
  | some p => p.1

/-- Python `str.strip()`. -/
def pyStrip (xs : Str) : Str :=
  ((xs.dropWhile Char.isWhitespace).reverse.dropWhile Char.isWhitespace).reverse

def digitsToNat (xs : Str) : Nat :=
  xs.foldl (fun a c => 10 * a + (c.toNat - 48)) 0

/-- Decimal-literal parser used to model Python `float(str)` on the forms the
portal emits: optional sign, digits, optional fractional part.  Returns
`none` on any other shape (where Python `float` raises `ValueError`). -/
def parseUnsigned (cs : Str) : Option ℚ :=
  let intPart := cs.takeWhile Char.isDigit
  match cs.drop intPart.length with
  | [] => if intPart.isEmpty then none else some (digitsToNat intPart : ℚ)
  | '.' :: frac =>
    let fracPart := frac.takeWhile Char.isDigit
    if (frac.drop fracPart.length).isEmpty then
      if intPart.isEmpty && fracPart.isEmpty then none
      else some ((digitsToNat intPart : ℚ) +
        (digitsToNat fracPart : ℚ) / ((10 : ℚ) ^ fracPart.length))
    else none
  | _ => none

def parseDecimal (cs : Str) : Option ℚ :=
  match cs with
  | '+' :: r => parseUnsigned r
  | '-' :: r => (parseUnsigned r).map Neg.neg
  | _ => parseUnsigned cs

/-- Parsed JSON values (the bodies returned by the portal's endpoints). -/
inductive JValue where
  | null : JValue
  | bool : Bool → JValue
  | num : ℚ → JValue
  | str : Str → JValue
  | arr : List JValue → JValue
  | obj : List (Str × JValue) → JValue

/-- Assoc-list lookup (Python dict indexing; dict keys are unique). -/
def lookupStr (kvs : List (Str × JValue)) (k : Str) : Option JValue :=
  match kvs with
  | [] => none
  | (k2, v) :: rest => if k2 = k then some v else lookupStr rest k

/-- Python `d.get(k)` (default `None`): raises (`error`) on a non-dict. -/
def jGetE (j : JValue) (k : Str) : Except Unit JValue :=
  match j with
  | .obj kvs => .ok ((lookupStr kvs k).getD .null)
  | _ => .error ()

/-- Python `d.get(k, dflt)`: raises (`error`) on a non-dict. -/
def jGetD (j : JValue) (k : Str) (dflt : JValue) : Except Unit JValue :=
  match j with
  | .obj kvs => .ok ((lookupStr kvs k).getD dflt)
  | _ => .error ()

/-- Python truthiness of a JSON value. -/
def jTruthy : JValue → Bool
  | .null => false
  | .bool b => b
  | .num q => if q = 0 then false else true
  | .str cs => !cs.isEmpty
  | .arr xs => !xs.isEmpty
  | .obj kvs => !kvs.isEmpty

/-- Python `len`: raises (`error`) on unsized values. -/
def jLen : JValue → Except Unit Nat
  | .str cs => .ok cs.length
  | .arr xs => .ok xs.length
  | .obj kvs => .ok kvs.length
  | _ => .error ()

/-- Python `x[0]`: first element of a sequence; raises (`error`) on empty
sequences and on values not indexable by the integer `0` (our objects have
string keys only). -/
def jIndex0 : JValue → Except Unit JValue
  | .arr (x :: _) => .ok x
  | .str (c :: _) => .ok (.str [c])
  | _ => .error ()

/-- Python `float(x)` for JSON values: `none` models a raised exception. -/
def pyFloat : JValue → Option ℚ
  | .num q => some q
  | .bool b => some (if b then 1 else 0)
  | .str cs => parseDecimal (pyStrip cs)
  | _ => none

/-- Python `dict[k] = v` on an assoc list: overwrite in place if the key
exists (Python dicts keep insertion position), else append. -/
def dictSet {κ α : Type} [DecidableEq κ] (m : List (κ × α)) (k : κ) (v : α) :
    List (κ × α) :=
  if m.any (fun p => p.1 = k) then
    m.map (fun p => if p.1 = k then (k, v) else p)
  else m ++ [(k, v)]

/-- Python `dict.update`. -/
def dictSetAll {κ α : Type} [DecidableEq κ] (m : List (κ × α))
    (kvs : List (κ × α)) : List (κ × α) :=
  kvs.foldl (fun acc p => dictSet acc p.1 p.2) m

/-- Python `k in dict`. -/
def hasKey {κ α : Type} [DecidableEq κ] (m : List (κ × α)) (k : κ) : Bool :=
  m.any (fun p => p.1 = k)

def lookupD {κ α : Type} [DecidableEq κ] (m : List (κ × α)) (k : κ) :
    Option α :=
  match m with
  | [] => none
  | (k2, v) :: rest => if k2 = k then some v else lookupD rest k

/-! ### Literals from `api.py` -/

def apDelim : Str := ", ap. ".data
def parcariTok : Str := "PARCARI".data
def commaTok : Str := ",".data
def dataCodeAttr : Str := "data-code=\"".data
def dataAssocAttr : Str := "data-assoc=\"".data
def resultsKey : Str := "results".data
def ownerKey : Str := "owner".data
def assocKey : Str := "assoc".data
def amountKey : Str := "amount".data
def dateKey : Str := "date".data
def adminisCookie : String := "adminis"

/-! ### The discovery regex

`re.findall(r'data-code="(\d+)"[^>]*>([^<]+)<', html)`.  Every quantifier
in the pattern is followed by a character its class excludes, so greedy
maximal munch needs no backtracking and the scan below is exact. -/

/-- Strip `pre` from the front of `l`, if present. -/
def dropPre? (pre l : Str) : Option Str :=
  if pre.isPrefixOf l then some (l.drop pre.length) else none

/-- Try to match the location pattern at the start of `cs`; on success
return the two capture groups (id digits, label text) and the remainder of
the input after the match. -/
def matchAt (cs : Str) : Option (Str × Str × Str) :=
  match dropPre? dataCodeAttr cs with
  | none => none
  | some r0 =>
    let digits := r0.takeWhile Char.isDigit
    if digits.isEmpty then none
    else
      match r0.drop digits.length with
      | '"' :: r1 =>
        let mid := r1.takeWhile (fun c => !(c = '>'))
        match r1.drop mid.length with
        | '>' :: r2 =>
          let name := r2.takeWhile (fun c => !(c = '<'))
          if name.isEmpty then none
          else
            match r2.drop name.length with
            | '<' :: rest => some (digits, name, rest)
            | _ => none
        | _ => none
      | _ => none

theorem drop_cons_length {xs ys : Str} {k : Nat} {y : Char}
    (h : xs.drop k = y :: ys) : ys.length < xs.length := by
  have h1 : (xs.drop k).length ≤ xs.length := by
    rw [List.length_drop]; omega
  rw [h] at h1
  simp at h1
  omega

theorem dropPre?_length {pre l r : Str} (h : dropPre? pre l = some r) :
    r.length ≤ l.length := by
  unfold dropPre? at h
  split at h
  · cases h; rw [List.length_drop]; omega
  · cases h

theorem matchAt_length {cs i n rest : Str}
    (h : matchAt cs = some (i, n, rest)) : rest.length < cs.length := by
  unfold matchAt at h
  split at h
  · cases h
  · rename_i r0 h0
    have hr0 : r0.length ≤ cs.length := dropPre?_length h0
    simp only [] at h
    split at h
    · cases h
    · split at h
      · rename_i r1 h1
        have hr1 : r1.length < r0.length := drop_cons_length h1
        split at h
        · rename_i r2 h2
          have hr2 : r2.length < r1.length := drop_cons_length h2
          split at h
          · cases h
          · split at h
            · rename_i rest2 h3
              have hr3 : rest2.length < r2.length := drop_cons_length h3
              cases h
              omega
            · cases h
        · cases h
      · cases h

/-- One scan step per unit of fuel: emit the match at the current position
and resume after it, or advance one character.  Each step consumes at
least one character of input (`matchAt_length`), so `length + 1` units of
fuel always complete the scan; structural recursion on the fuel keeps the
definition kernel-reducible. -/
def reFindAllGo : Nat → Str → List (Str × Str)
  | 0, _ => []
  | fuel + 1, cs =>
    match matchAt cs with
    | some (i, n, rest) => (i, n) :: reFindAllGo fuel rest
    | none =>
      match cs with
      | [] => []
      | _ :: t => reFindAllGo fuel t

/-- `re.findall` for the location pattern: scan left to right, emitting
non-overlapping matches, resuming after each match. -/
def reFindAll (cs : Str) : List (Str × Str) :=
  reFindAllGo (cs.length + 1) cs

/-- Try to match `data-assoc="(\d+)"` at the start of `cs`. -/
def matchAssocAt (cs : Str) : Option Str :=
  match dropPre? dataAssocAttr cs with
  | none => none
  | some r0 =>
    let digits := r0.takeWhile Char.isDigit
    if digits.isEmpty then none
    else
      match r0.drop digits.length with
      | '"' :: _ => some digits
      | _ => none

/-- `re.search(r'data-assoc="(\d+)"', html)`: leftmost match's group. -/
def findAssoc : Str → Option Str
  | [] => none
  | c :: t =>
    match matchAssocAt (c :: t) with
    | some digits => some digits
    | none => findAssoc t

/-! ### Location classification (`_extract_location_ids`, lines 129-139) -/

inductive LocType where
  | apartment : LocType
  | parking : LocType
  | unknown : LocType
deriving DecidableEq

structure LocationInfo where
  name : Str
  id : Str
  apartment : Option Str
  type : LocType
  association_id : Option Str
deriving DecidableEq

/-- `loc_name.split(", ap. ")[1].split(",")[0]`: the segment between the
first and second occurrence of `", ap. "`, cut at its first comma.
(`split(sep)[1]` is everything after the first occurrence of `sep` up to
the next occurrence; `split(",")[0]` is everything before the first
comma.)  Only evaluated under the guard `", ap. " in loc_name`. -/
def locApartment (name : Str) : Str :=
  beforeFirst commaTok (beforeFirst apDelim (afterFirst apDelim name))

/-- The `type` computed for a label, exactly as in the source: the
`PARCARI` / leading-`S` tests run only inside the `", ap. " in loc_name`
branch. -/
def labelType (name : Str) : LocType :=
  if containsSub apDelim name then
    if containsSub parcariTok name || (locApartment name).head? = some 'S' then
      .parking
    else .apartment
  else .unknown

/-- The metadata record stored for a discovered location. -/
def makeInfo (locId locName : Str) : LocationInfo :=
  { name := pyStrip locName
    id := locId
    apartment := if containsSub apDelim locName then some (locApartment locName) else none
    type := labelType locName
    association_id := none }

/-! ### Client state and upstream environments -/

/-- The mutable fields of `AdminisLocuinteAPI`. -/
structure ApiState where
  authenticated : Bool
  locationIds : List Str
  locationInfo : List (Str × LocationInfo)
  cookies : List (String × String)
deriving DecidableEq

/-- Upstream behaviour of the two login requests: `.error ()` is a raised
transport exception, `.ok (status, cookies)` a response. -/
structure AuthEnv where
  loginGet : Except Unit (Nat × List (String × String))
  loginPost : Except Unit (Nat × List (String × String))

/-- Upstream behaviour during one poll: the dashboard response and, per
location id, the three JSON endpoints (`.error ()` covers both non-success
HTTP statuses — on which the fetchers raise — and body-parse failures). -/
structure PollEnv where
  auth : AuthEnv
  dashboard : Except Unit (Nat × Str)
  pending : Str → Except Unit JValue
  history : Str → Except Unit JValue
  counters : Str → Except Unit JValue

/-! ### `authenticate` (lines 45-97) -/

/-- `AdminisLocuinteAPI.authenticate`: GET the login page (non-200 raises),
merge its cookies, POST the credentials, merge the response cookies; 302
plus an `adminis` cookie in the merged jar means success (and sets the
authenticated flag); any other status, or 302 without the cookie, returns
`false` without raising.  Transport exceptions propagate. -/
def authenticate (env : AuthEnv) (st : ApiState) :
    Except Unit (Bool × ApiState) :=
  match env.loginGet with
  | .error e => .error e
  | .ok (status, ck) =>
    if status ≠ 200 then .error ()
    else
      let st1 : ApiState := { st with cookies := dictSetAll st.cookies ck }
      match env.loginPost with
      | .error e => .error e
      | .ok (pstatus, pck) =>
        let st2 : ApiState := { st1 with cookies := dictSetAll st1.cookies pck }
        if pstatus = 302 then
          if hasKey st2.cookies adminisCookie then
            .ok (true, { st2 with authenticated := true })
          else .ok (false, st2)
        else .ok (false, st2)

/-! ### `_extract_location_ids` (lines 99-157) -/

/-- The `for loc_id, loc_name in matches` loop: append each not-yet-seen id
and store its metadata record. -/
def discoverLoop (ms : List (Str × Str)) (ids : List Str)
    (info : List (Str × LocationInfo)) :
    List Str × List (Str × LocationInfo) :=
  match ms with
  | [] => (ids, info)
  | (i, n) :: rest =>
    if i ∈ ids then discoverLoop rest ids info
    else discoverLoop rest (ids ++ [i]) (dictSet info i (makeInfo i n))

/-- The `for loc_id in location_ids` loop attaching the association id. -/
def setAssocAll (info : List (Str × LocationInfo)) (ids : List Str)
    (aid : Str) : List (Str × LocationInfo) :=
  ids.foldl
    (fun m i =>
      m.map (fun p =>
        if p.1 = i then (p.1, { p.2 with association_id := some aid }) else p))
    info

/-- `AdminisLocuinteAPI._extract_location_ids`: on a 200 dashboard response
run the regex scan, the dedup loop and the association scan; on any other
status or on a raised exception return `[]`.  Returns the id list and the
updated state (the `_location_info` side mapping). -/
def extractLocationIds (dashboard : Except Unit (Nat × Str)) (st : ApiState) :
    List Str × ApiState :=
  match dashboard with
  | .error _ => ([], st)
  | .ok (status, html) =>
    if status = 200 then
      let run := discoverLoop (reFindAll html) [] st.locationInfo
      let info2 :=
        match findAssoc html with
        | some aid => setAssocAll run.2 run.1 aid
        | none => run.2
      (run.1, { st with locationInfo := info2 })
    else ([], st)

/-! ### Snapshot data model (`get_data`'s return value) -/

/-- One location's entry in the returned mapping; each fetched field is
`none` when its fetch (or the bookkeeping right after it) failed. -/
structure LocationSnapshot where
  info : Option LocationInfo
  pending_payments : Option JValue
  payment_history : Option JValue
  counters : Option JValue

/-- The `last_payment` candidate remembered for the summary. -/
structure LastPayment where
  amount : ℚ
  date : JValue
  location_id : Str

/-- The `summary` mapping; `lastPayment = none` models the absence of the
three `last_payment_*` keys. -/
structure Summary where
  total_pending : ℚ
  location_count : Nat
  lastPayment : Option LastPayment

structure Snapshot where
  locations : List (Str × LocationSnapshot)
  summary : Summary

/-! ### `get_data` (lines 159-278) -/

/-- Lines 234-242: the bookkeeping run after a successful payment-history
fetch, inside the same `try`.  An `error` models an exception raised after
`location_data["payment_history"]` was already assigned (the handler then
overwrites it with `None`); `ok` returns the possibly-updated last-payment
candidate. -/
def historyBookkeep (j : JValue) (lastPay : Option LastPayment) (locId : Str) :
    Except Unit (Option LastPayment) :=
  match jGetE j resultsKey with
  | .error e => .error e
  | .ok r =>
    if jTruthy r then
      match jLen r with
      | .error e => .error e
      | .ok len =>
        if len > 0 then
          match jIndex0 r with
          | .error e => .error e
          | .ok latest =>
            match lastPay with
            | some _ => .ok lastPay
            | none =>
              match jGetD latest amountKey (.num 0) with
              | .error e => .error e
              | .ok amtv =>
                match pyFloat amtv with
                | none => .error ()
                | some q =>
                  match jGetD latest dateKey (.str []) with
                  | .error e => .error e
                  | .ok d => .ok (some ⟨q, d, locId⟩)
        else .ok lastPay
    else .ok lastPay

/-- Lines 214-227: record the pending-payments fetch.  The body of the
`try` also pokes at `results` / `results.get("owner"/"assoc")`; an
exception there (non-dict values) is caught by the same handler and
resolves the field to `None`. -/
def pendingField (fetched : Except Unit JValue) : Option JValue :=
  match fetched with
  | .error _ => none
  | .ok j =>
    match jGetE j resultsKey with
    | .error _ => none
    | .ok r =>
      if jTruthy r then
        match jGetE r ownerKey with
        | .error _ => none
        | .ok o =>
          if jTruthy o then some j
          else
            match jGetE r assocKey with
            | .error _ => none
            | .ok _ => some j
      else some j

/-- The body of the `for location_id in self._location_ids` loop for one
location: build its `LocationSnapshot` and thread the last-payment
candidate. -/
def processLocation (env : PollEnv) (info : List (Str × LocationInfo))
    (lastPay : Option LastPayment) (locId : Str) :
    LocationSnapshot × Option LastPayment :=
  let infoEntry := lookupD info locId
  let pending := pendingField (env.pending locId)
  let histPair : Option JValue × Option LastPayment :=
    match env.history locId with
    | .error _ => (none, lastPay)
    | .ok j =>
      match historyBookkeep j lastPay locId with
      | .error _ => (none, lastPay)
      | .ok lp => (some j, lp)
  let counters :=
    match env.counters locId with
    | .error _ => none
    | .ok j => some j
  (⟨infoEntry, pending, histPair.1, counters⟩, histPair.2)

/-- The whole per-location loop, accumulating `locations_data` (a Python
dict: insertion overwrites duplicates in place) and the last-payment
candidate. -/
def processAll (env : PollEnv) (info : List (Str × LocationInfo))
    (ids : List Str) (acc : List (Str × LocationSnapshot))
    (lastPay : Option LastPayment) :
    List (Str × LocationSnapshot) × Option LastPayment :=
  match ids with
  | [] => (acc, lastPay)
  | locId :: rest =>
    let pl := processLocation env info lastPay locId
    processAll env info rest (dictSet acc locId pl.1) pl.2

/-- The body of `get_data` after the authentication step (the `try` block,
lines 183-274): discover locations when the cached id list is empty,
return the empty snapshot when it is still empty, otherwise run the
per-location loop and assemble the summary.  `total_pending` stays at its
initial `0.0`.  Nothing in this body raises: every per-resource failure is
handled inside the loop, so the surrounding `except`/re-raise is dead in
the model. -/
def getDataCore (env : PollEnv) (st1 : ApiState) : Snapshot × ApiState :=
  let st2 : ApiState :=
    if st1.locationIds.isEmpty then
      { (extractLocationIds env.dashboard st1).2 with
        locationIds := (extractLocationIds env.dashboard st1).1 }
    else st1
  if st2.locationIds.isEmpty then
    (⟨[], ⟨0, 0, none⟩⟩, st2)
  else
    let run := processAll env st2.locationInfo st2.locationIds [] none
    (⟨run.1, ⟨0, st2.locationIds.length, run.2⟩⟩, st2)

/-- `AdminisLocuinteAPI.get_data`: re-authenticate when the flag is down
(the boolean result is ignored; only a raised exception propagates), then
run the body. -/
def getData (env : PollEnv) (st : ApiState) :
    Except Unit (Snapshot × ApiState) :=
  if st.authenticated then .ok (getDataCore env st)
  else
    match authenticate env.auth st with
    | .error e => .error e
    | .ok (_, st1) => .ok (getDataCore env st1)

/-! ### De-duplication machinery (discovery keeps first occurrences) -/

/-- The ids the dedup loop emits beyond its accumulator: first occurrences
of elements not already seen. -/
def dedupNew (seen : List Str) : List Str → List Str
  | [] => []
  | x :: xs =>
    if x ∈ seen then dedupNew seen xs else x :: dedupNew (seen ++ [x]) xs

theorem discoverLoop_fst (ms : List (Str × Str)) :
    ∀ ids info, (discoverLoop ms ids info).1 = ids ++ dedupNew ids (ms.map Prod.fst) := by
  induction ms with
  | nil => intro ids info; simp [discoverLoop, dedupNew]
  | cons p rest ih =>
    intro ids info
    obtain ⟨i, n⟩ := p
    by_cases hmem : i ∈ ids
    · simp [discoverLoop, dedupNew, hmem, ih]
    · simp only [discoverLoop, dedupNew, hmem, if_false, List.map_cons]
      rw [ih]
      simp

theorem dedupNew_mem (xs : List Str) :
    ∀ seen a, a ∈ dedupNew seen xs ↔ a ∈ xs ∧ a ∉ seen := by
  induction xs with
  | nil => intro seen a; simp [dedupNew]
  | cons x xs ih =>
    intro seen a
    by_cases hx : x ∈ seen
    · rw [dedupNew, if_pos hx, ih]
      constructor
      · rintro ⟨h1, h2⟩; exact ⟨List.mem_cons_of_mem _ h1, h2⟩
      · rintro ⟨h1, h2⟩
        rcases List.mem_cons.mp h1 with rfl | h1
        · exact absurd hx h2
        · exact ⟨h1, h2⟩
    · rw [dedupNew, if_neg hx]
      rcases eq_or_ne a x with rfl | hax
      · simp [hx]
      · rw [List.mem_cons, ih]
        simp only [hax, List.mem_append, List.mem_singleton, List.mem_cons,
          false_or, or_false]
        tauto

theorem dedupNew_nodup (xs : List Str) : ∀ seen, (dedupNew seen xs).Nodup := by
  induction xs with
  | nil => intro seen; simp [dedupNew]
  | cons x xs ih =>
    intro seen
    by_cases hx : x ∈ seen
    · rw [dedupNew, if_pos hx]; exact ih seen
    · rw [dedupNew, if_neg hx]
      refine List.nodup_cons.mpr ⟨?_, ih (seen ++ [x])⟩
      intro hmem
      have := (dedupNew_mem xs (seen ++ [x]) x).mp hmem
      simp at this

/-- Index of the first occurrence of `a` (length of the list when absent):
the position in the match sequence at which an id first appears. -/
def idxOf (a : Str) : List Str → Nat
  | [] => 0
  | x :: xs => if x = a then 0 else idxOf a xs + 1

theorem idxOf_cons_self (a : Str) (l : List Str) : idxOf a (a :: l) = 0 := by
  simp [idxOf]

theorem idxOf_cons_ne {a x : Str} (l : List Str) (h : x ≠ a) :
    idxOf a (x :: l) = idxOf a l + 1 := by
  simp [idxOf, h]

theorem dedupNew_firstSeenOrder (xs : List Str) :
    ∀ seen, (dedupNew seen xs).Pairwise
      (fun a b => idxOf a xs < idxOf b xs) := by
  induction xs with
  | nil => intro seen; simp [dedupNew]
  | cons x xs ih =>
    intro seen
    by_cases hx : x ∈ seen
    · rw [dedupNew, if_pos hx]
      refine List.Pairwise.imp_of_mem ?_ (ih seen)
      intro a b ha hb hlt
      have hax : a ≠ x := by
        have := (dedupNew_mem xs seen a).mp ha
        rintro rfl; exact this.2 hx
      have hbx : b ≠ x := by
        have := (dedupNew_mem xs seen b).mp hb
        rintro rfl; exact this.2 hx
      rw [idxOf_cons_ne _ (Ne.symm hax), idxOf_cons_ne _ (Ne.symm hbx)]
      omega
    · rw [dedupNew, if_neg hx]
      refine List.pairwise_cons.mpr ⟨?_, ?_⟩
      · intro b hb
        have hbmem := (dedupNew_mem xs (seen ++ [x]) b).mp hb
        have hbx : b ≠ x := by
          intro heq; exact hbmem.2 (by simp [heq])
        rw [idxOf_cons_self, idxOf_cons_ne _ (Ne.symm hbx)]
        omega
      · refine List.Pairwise.imp_of_mem ?_ (ih (seen ++ [x]))
        intro a b ha hb hlt
        have hax : a ≠ x := by
          intro heq
          exact ((dedupNew_mem xs (seen ++ [x]) a).mp ha).2 (by simp [heq])
        have hbx : b ≠ x := by
          intro heq
          exact ((dedupNew_mem xs (seen ++ [x]) b).mp hb).2 (by simp [heq])
        rw [idxOf_cons_ne _ (Ne.symm hax), idxOf_cons_ne _ (Ne.symm hbx)]
        omega

/-! ### String lemmas for the apartment-designator claim -/

theorem firstSplit_decomp (sep : Str) :
    ∀ xs b a, firstSplit sep xs = some (b, a) → xs = b ++ sep ++ a := by
  intro xs
  induction xs with
  | nil =>
    intro b a h
    rw [firstSplit] at h
    split at h
    · rename_i hpre
      have hsep : sep = [] := by
        have := List.isPrefixOf_iff_prefix.mp hpre
        simpa using this
      cases h
      simp [hsep]
    · cases h
  | cons c t ih =>
    intro b a h
    rw [firstSplit] at h
    split at h
    · rename_i hpre
      have hpre2 := List.isPrefixOf_iff_prefix.mp hpre
      obtain ⟨r, hr⟩ := hpre2
      cases h
      rw [← hr, List.drop_left' rfl]
      simpa using hr.symm
    · rename_i hpre
      rcases hm : firstSplit sep t with _ | p
      · rw [hm] at h; cases h
      · rw [hm] at h
        obtain ⟨b2, a2⟩ := p
        simp only [Option.map_some', Option.some.injEq, Prod.mk.injEq] at h
        obtain ⟨hb, ha⟩ := h
        subst hb; subst ha
        have hdec := ih b2 a2 hm
        simp [hdec]

theorem takeWhile_stop {p : Char → Bool} {c : Char} (hc : p c = false) :
    ∀ (b rest : Str), List.takeWhile p (b ++ c :: rest) = List.takeWhile p b := by
  intro b
  induction b with
  | nil => intro rest; simp [List.takeWhile, hc]
  | cons d b ih =>
    intro rest
    simp only [List.cons_append, List.takeWhile]
    cases p d <;> simp [ih]

theorem beforeFirst_of_none {sep xs : Str} (h : firstSplit sep xs = none) :
    beforeFirst sep xs = xs := by
  unfold beforeFirst; rw [h]

theorem beforeFirst_of_some {sep xs b a : Str}
    (h : firstSplit sep xs = some (b, a)) : beforeFirst sep xs = b := by
  unfold beforeFirst; rw [h]

theorem beforeFirst_single (c : Char) :
    ∀ z : Str, beforeFirst [c] z = z.takeWhile (fun d => !(d = c)) := by
  intro z
  induction z with
  | nil => simp [beforeFirst, firstSplit]
  | cons d t ih =>
    by_cases hdc : c = d
    · subst hdc
      have hfs : firstSplit [c] (c :: t) = some ([], t) := by
        rw [firstSplit, if_pos (by simp [List.isPrefixOf])]
        simp
      rw [beforeFirst_of_some hfs]
      simp [List.takeWhile_cons]
    · have hne : ¬ List.isPrefixOf [c] (d :: t) = true := by
        simp [List.isPrefixOf, hdc]
      rcases hm : firstSplit [c] t with _ | p
      · have hfs : firstSplit [c] (d :: t) = none := by
          rw [firstSplit, if_neg hne, hm]; rfl
        rw [beforeFirst_of_none hfs]
        rw [beforeFirst_of_none hm] at ih
        simp [List.takeWhile_cons, Ne.symm hdc]
        exact ih
      · obtain ⟨b2, a2⟩ := p
        have hfs : firstSplit [c] (d :: t) = some (d :: b2, a2) := by
          rw [firstSplit, if_neg hne, hm]; rfl
        rw [beforeFirst_of_some hfs]
        rw [beforeFirst_of_some hm] at ih
        simp [List.takeWhile_cons, Ne.symm hdc]
        exact ih

/-- The spec's wording for the apartment designator: the substring after
`", ap. "` up to the next comma. -/
def specDesignator (name : Str) : Str :=
  (afterFirst apDelim name).takeWhile (fun d => !(d = ','))

theorem commaTok_eq : commaTok = [','] := rfl

theorem apDelim_cons : apDelim = ',' :: " ap. ".data := rfl

/-- The code's `split(", ap. ")[1].split(",")[0]` computes exactly the
spec's designator (the delimiter itself starts with a comma, so cutting at
the next delimiter occurrence and then at the next comma is cutting at the
next comma). -/
theorem locApartment_eq_specDesignator (name : Str) :
    locApartment name = specDesignator name := by
  unfold locApartment specDesignator
  rw [commaTok_eq, beforeFirst_single]
  rcases hm : firstSplit apDelim (afterFirst apDelim name) with _ | p
  · rw [beforeFirst_of_none hm]
  · obtain ⟨b, a⟩ := p
    have hdec := firstSplit_decomp apDelim (afterFirst apDelim name) b a hm
    rw [beforeFirst_of_some hm, hdec, apDelim_cons]
    have hsplit : b ++ (',' :: " ap. ".data) ++ a = b ++ ',' :: (" ap. ".data ++ a) := by
      simp
    rw [hsplit, takeWhile_stop (by simp) b (" ap. ".data ++ a)]

/-! ### Structural lemmas about `authenticate` / `extractLocationIds` -/

theorem authenticate_preserves {env : AuthEnv} {st : ApiState} {b : Bool}
    {st1 : ApiState} (h : authenticate env st = .ok (b, st1)) :
    st1.locationIds = st.locationIds ∧ st1.locationInfo = st.locationInfo := by
  unfold authenticate at h
  split at h
  · cases h
  · split at h
    · cases h
    · split at h
      · cases h
      · simp only [] at h
        split at h
        · split at h
          · cases h; exact ⟨rfl, rfl⟩
          · cases h; exact ⟨rfl, rfl⟩
        · cases h; exact ⟨rfl, rfl⟩

theorem extract_preserves (d : Except Unit (Nat × Str)) (st : ApiState) :
    ((extractLocationIds d st).2).authenticated = st.authenticated ∧
    ((extractLocationIds d st).2).locationIds = st.locationIds := by
  unfold extractLocationIds
  rcases d with _ | ⟨status, html⟩
  · exact ⟨rfl, rfl⟩
  · by_cases hs : status = 200
    · subst hs
      simp
    · simp [hs]

theorem extract_fst_eq (d : Except Unit (Nat × Str)) (st st' : ApiState) :
    (extractLocationIds d st).1 = (extractLocationIds d st').1 := by
  unfold extractLocationIds
  rcases d with _ | ⟨status, html⟩
  · rfl
  · by_cases hs : status = 200
    · subst hs
      simp [discoverLoop_fst]
    · simp [hs]

theorem extract_fst_dedup (html : Str) (st : ApiState) :
    (extractLocationIds (.ok (200, html)) st).1 =
      dedupNew [] ((reFindAll html).map Prod.fst) := by
  unfold extractLocationIds
  simp [discoverLoop_fst]

/-! ### Claim C6: discovery de-duplicates, first-seen order -/

/-- C6: for every dashboard markup, the id sequence returned by discovery
contains each matched id exactly once (no duplicates, and every matched id
appears), ordered by first occurrence of the id's pattern match in the
markup, regardless of how often the pattern repeats. -/
theorem discovery_ids_unique_first_seen (html : Str) (st : ApiState) :
    ((extractLocationIds (.ok (200, html)) st).1).Nodup ∧
    (∀ x, x ∈ (extractLocationIds (.ok (200, html)) st).1 ↔
      x ∈ (reFindAll html).map Prod.fst) ∧
    ((extractLocationIds (.ok (200, html)) st).1).Pairwise
      (fun a b => idxOf a ((reFindAll html).map Prod.fst) <
        idxOf b ((reFindAll html).map Prod.fst)) := by
  refine ⟨?_, ?_, ?_⟩ <;> rw [extract_fst_dedup]
  · exact dedupNew_nodup _ []
  · intro x
    rw [dedupNew_mem]
    simp
  · exact dedupNew_firstSeenOrder _ []

/-! ### Claim C2: label classification -/

def parcariLabel : Str := "Str. Exemplu nr. 1, PARCARI, Iasi".data

/-- C2 counterexample: a label that contains the parking-area marker token
but lacks the `", ap. "` delimiter is classified `unknown` by the code,
not `parking` as the claim states. -/
theorem parcari_without_delimiter_is_unknown :
    containsSub parcariTok parcariLabel = true ∧
    containsSub apDelim parcariLabel = false ∧
    labelType parcariLabel = LocType.unknown ∧
    (makeInfo ("200").data parcariLabel).type = LocType.unknown := by
  refine ⟨by decide, by decide, by decide, by decide⟩

/-- C2 amended: classification is parking iff the label contains the
`", ap. "` delimiter and (contains the parking marker token or the
apartment designator — the substring after `", ap. "` up to the next
comma — starts with a capital S); apartment iff the delimiter is present
and neither parking condition holds; unknown iff the delimiter is absent
(in particular a label containing the parking marker but lacking the
delimiter is unknown, not parking). -/
theorem labelType_characterization (name : Str) :
    (labelType name = .parking ↔
      containsSub apDelim name = true ∧
        (containsSub parcariTok name = true ∨
          (specDesignator name).head? = some 'S')) ∧
    (labelType name = .apartment ↔
      containsSub apDelim name = true ∧
        ¬(containsSub parcariTok name = true ∨
          (specDesignator name).head? = some 'S')) ∧
    (labelType name = .unknown ↔ containsSub apDelim name = false) := by
  unfold labelType
  rw [locApartment_eq_specDesignator]
  by_cases h1 : containsSub apDelim name = true
  · rw [if_pos h1]
    by_cases h2 : containsSub parcariTok name = true ∨
        (specDesignator name).head? = some 'S'
    · have hb : (containsSub parcariTok name ||
          decide ((specDesignator name).head? = some 'S')) = true := by
        rcases h2 with h | h
        · simp [h]
        · simp [h]
      rw [if_pos hb]
      simp [h1, h2]
    · have hb : (containsSub parcariTok name ||
          decide ((specDesignator name).head? = some 'S')) = false := by
        push_neg at h2
        simp [h2.1, h2.2]
      rw [hb]
      simp [h1, h2]
  · rw [if_neg h1]
    simp only [Bool.not_eq_true] at h1
    simp [h1]

/-! ### Claim C1: when does a poll raise? -/

/-- C1 amended: `get_data` raises if and only if it starts unauthenticated
and `authenticate` itself raises.  In particular a non-raising
authentication failure (`authenticate` returning `false`) does not stop
the poll: nothing after the authentication step can raise. -/
theorem getData_error_iff_auth_error (env : PollEnv) (st : ApiState) :
    getData env st = .error () ↔
      st.authenticated = false ∧ authenticate env.auth st = .error () := by
  unfold getData
  by_cases h : st.authenticated = true
  · simp [h]
  · have hb : st.authenticated = false := by simpa using h
    simp only [hb, Bool.false_eq_true, if_false]
    rcases ha : authenticate env.auth st with e | ⟨b, st1⟩
    · obtain ⟨⟩ := e
      simp
    · simp

/-- A dashboard markup with one location block. -/
def cexHtml : Str := "data-code=\"16835\">Str. X, ap. 12, Iasi<".data

/-- Upstream where the login POST returns 200 (no redirect): `authenticate`
returns `false` without raising. -/
def cexAuthFalse : AuthEnv := ⟨.ok (200, []), .ok (200, [])⟩

/-- A poll environment whose authentication fails non-fatally but whose
dashboard still answers. -/
def cexEnv : PollEnv :=
  { auth := cexAuthFalse
    dashboard := .ok (200, cexHtml)
    pending := fun _ => .error ()
    history := fun _ => .error ()
    counters := fun _ => .error () }

/-- The client before its first successful login. -/
def cexSt : ApiState := ⟨false, [], [], []⟩

/-- C1 counterexample: starting unauthenticated, the authentication step
fails (`authenticate` returns `false`, leaving the flag down), yet
`get_data` does not raise — it proceeds to discovery and fetching without
a session and returns a snapshot with one location. -/
theorem poll_proceeds_after_failed_authentication :
    cexSt.authenticated = false ∧
    authenticate cexEnv.auth cexSt = .ok (false, cexSt) ∧
    (getData cexEnv cexSt).isOk = true ∧
    (match getData cexEnv cexSt with
      | .ok (snap, _) => snap.summary.location_count
      | .error _ => 0) = 1 ∧
    (match getData cexEnv cexSt with
      | .ok (snap, _) => snap.locations.length
      | .error _ => 0) = 1 := by
  exact ⟨rfl, rfl, rfl, rfl, rfl⟩

/-! ### Claim C7: empty discovery and the empty snapshot -/

/-- C7: malformed or matchless dashboard markup (or a failed / non-200
dashboard response) yields an empty id sequence without raising, and a
poll whose location set is still empty after that single discovery
attempt returns the empty snapshot as a non-error outcome. -/
theorem empty_discovery_gives_empty_snapshot :
    (∀ st : ApiState, (extractLocationIds (.error ()) st).1 = []) ∧
    (∀ (st : ApiState) (status : Nat) (html : Str), status ≠ 200 →
      (extractLocationIds (.ok (status, html)) st).1 = []) ∧
    (∀ (st : ApiState) (html : Str), reFindAll html = [] →
      (extractLocationIds (.ok (200, html)) st).1 = []) ∧
    (∀ (env : PollEnv) (st : ApiState), st.authenticated = true →
      st.locationIds = [] → (extractLocationIds env.dashboard st).1 = [] →
      ∃ st2, getData env st = .ok (⟨[], ⟨0, 0, none⟩⟩, st2)) := by
  refine ⟨fun st => rfl, ?_, ?_, ?_⟩
  · intro st status html hs
    unfold extractLocationIds
    simp [hs]
  · intro st html hm
    rw [extract_fst_dedup, hm]
    rfl
  · intro env st hauth hids hempty
    refine ⟨{ (extractLocationIds env.dashboard st).2 with
      locationIds := (extractLocationIds env.dashboard st).1 }, ?_⟩
    unfold getData getDataCore
    have h1 : st.locationIds.isEmpty = true := by simp [hids]
    have h2 : ((extractLocationIds env.dashboard st).1).isEmpty = true := by
      simp [hempty]
    simp only [hauth, if_true, h1, h2]

/-- Witness for C7 at a concrete input: an empty dashboard body yields no
matches, and a poll over it returns the empty snapshot. -/
theorem empty_discovery_witness :
    ∃ st2, getData { cexEnv with dashboard := .ok (200, []) }
      { cexSt with authenticated := true } = .ok (⟨[], ⟨0, 0, none⟩⟩, st2) :=
  empty_discovery_gives_empty_snapshot.2.2.2
    { cexEnv with dashboard := .ok (200, []) }
    { cexSt with authenticated := true } rfl rfl rfl

/-! ### Assoc-list (Python dict) lemmas -/

theorem dictSet_fresh {κ α : Type} [DecidableEq κ] {m : List (κ × α)} {k : κ}
    (v : α) (h : hasKey m k = false) : dictSet m k v = m ++ [(k, v)] := by
  unfold dictSet
  unfold hasKey at h
  rw [if_neg (by simp [h])]

theorem hasKey_append {κ α : Type} [DecidableEq κ] (m m' : List (κ × α))
    (k : κ) : hasKey (m ++ m') k = (hasKey m k || hasKey m' k) := by
  unfold hasKey
  simp [List.any_append]

theorem hasKey_single {κ α : Type} [DecidableEq κ] (k i : κ) (v : α)
    (h : i ≠ k) : hasKey [(k, v)] i = false := by
  simp [hasKey, Ne.symm h]

theorem lookupD_append_left {κ α : Type} [DecidableEq κ] {m : List (κ × α)}
    (m' : List (κ × α)) {k : κ} (h : hasKey m k = false) :
    lookupD (m ++ m') k = lookupD m' k := by
  induction m with
  | nil => simp [lookupD]
  | cons p rest ih =>
    obtain ⟨k2, v⟩ := p
    simp only [hasKey, List.any_cons, Bool.or_eq_false_iff] at h
    rw [List.cons_append, lookupD, if_neg (by simpa using h.1)]
    exact ih (by simp [hasKey, h.2])

theorem lookupD_append_fresh {κ α : Type} [DecidableEq κ] {m : List (κ × α)}
    {k : κ} (v : α) (h : hasKey m k = false) :
    lookupD (m ++ [(k, v)]) k = some v := by
  rw [lookupD_append_left _ h]
  simp [lookupD]

theorem lookupD_append_other {κ α : Type} [DecidableEq κ] (m : List (κ × α))
    (k i : κ) (v : α) (h : i ≠ k) :
    lookupD (m ++ [(k, v)]) i = lookupD m i := by
  induction m with
  | nil => simp [lookupD, Ne.symm h]
  | cons p rest ih =>
    obtain ⟨k2, v2⟩ := p
    rw [List.cons_append, lookupD, lookupD]
    by_cases hk : k2 = i
    · simp [hk]
    · rw [if_neg hk, if_neg hk]
      exact ih

/-! ### Loop lemmas for the per-location pass -/

theorem processAll_length (env : PollEnv) (info : List (Str × LocationInfo)) :
    ∀ (ids : List Str) (acc : List (Str × LocationSnapshot))
      (lp : Option LastPayment), ids.Nodup →
      (∀ i ∈ ids, hasKey acc i = false) →
      ((processAll env info ids acc lp).1).length = acc.length + ids.length := by
  intro ids
  induction ids with
  | nil => intro acc lp _ _; simp [processAll]
  | cons locId rest ih =>
    intro acc lp hnd hfresh
    rw [processAll]
    have hk : hasKey acc locId = false := hfresh locId (by simp)
    have hnd2 := List.nodup_cons.mp hnd
    rw [dictSet_fresh _ hk]
    rw [ih (acc ++ [(locId, (processLocation env info lp locId).1)]) _ hnd2.2 ?_]
    · simp; omega
    · intro i hi
      rw [hasKey_append]
      have hil : i ≠ locId := fun heq => hnd2.1 (heq ▸ hi)
      simp [hfresh i (List.mem_cons_of_mem _ hi), hasKey_single _ _ _ hil]

/-- Discovery ids are always nodup, whatever the dashboard response. -/
theorem extract_fst_nodup (d : Except Unit (Nat × Str)) (st : ApiState) :
    ((extractLocationIds d st).1).Nodup := by
  rcases d with _ | ⟨status, html⟩
  · simp [extractLocationIds]
  · by_cases hs : status = 200
    · subst hs
      rw [extract_fst_dedup]
      exact dedupNew_nodup _ []
    · simp [extractLocationIds, hs]

/-! ### Claim C8: summary invariants -/

/-- C8: every snapshot a non-raising poll returns has
`location_count` equal to the number of entries in its locations mapping,
and `total_pending` equal to zero.  (The id list held by the client is
nodup whenever it was produced by discovery; the hypothesis records
that.) -/
theorem summary_invariants (env : PollEnv) (st : ApiState)
    (snap : Snapshot) (st2 : ApiState) (hnd : st.locationIds.Nodup)
    (h : getData env st = .ok (snap, st2)) :
    snap.summary.location_count = snap.locations.length ∧
    snap.summary.total_pending = 0 := by
  have hcore : ∀ st1 : ApiState, st1.locationIds.Nodup →
      ((getDataCore env st1).1).summary.location_count =
        ((getDataCore env st1).1).locations.length ∧
      ((getDataCore env st1).1).summary.total_pending = 0 := by
    intro st1 hnd1
    unfold getDataCore
    simp only []
    by_cases hempty : st1.locationIds.isEmpty = true
    · simp only [hempty, if_true]
      by_cases h2 : ((extractLocationIds env.dashboard st1).1).isEmpty = true
      · simp only [h2, if_true]
        constructor <;> trivial
      · simp only [h2, Bool.false_eq_true, if_false]
        refine ⟨?_, by trivial⟩
        have hlen := processAll_length env
          (extractLocationIds env.dashboard st1).2.locationInfo
          (extractLocationIds env.dashboard st1).1 [] none
          (extract_fst_nodup _ _) (fun i _ => rfl)
        simpa using hlen.symm
    · have hstF : st1.locationIds.isEmpty = false := by simpa using hempty
      simp only [hstF, Bool.false_eq_true, if_false]
      refine ⟨?_, by trivial⟩
      have hlen := processAll_length env st1.locationInfo st1.locationIds [] none
        hnd1 (fun i _ => rfl)
      simpa using hlen.symm
  unfold getData at h
  by_cases hauth : st.authenticated = true
  · rw [if_pos hauth] at h
    have hinj := Except.ok.inj h
    have h1 : snap = (getDataCore env st).1 := by rw [hinj]
    rw [h1]
    exact hcore st hnd
  · rw [if_neg hauth] at h
    rcases ha : authenticate env.auth st with e | ⟨b, st1⟩
    · rw [ha] at h; cases h
    · rw [ha] at h
      have hinj := Except.ok.inj h
      have h1 : snap = (getDataCore env st1).1 := by rw [hinj]
      have hpres := authenticate_preserves ha
      rw [h1]
      exact hcore st1 (hpres.1 ▸ hnd)

/-- Witness for C8: a concrete poll (one discovered location, all fetches
failing) satisfies the summary invariants. -/
theorem summary_invariants_witness :
    ((getDataCore cexEnv ⟨true, [], [], []⟩).1).summary.location_count =
      ((getDataCore cexEnv ⟨true, [], [], []⟩).1).locations.length ∧
    ((getDataCore cexEnv ⟨true, [], [], []⟩).1).summary.total_pending = 0 :=
  summary_invariants cexEnv ⟨true, [], [], []⟩
    (getDataCore cexEnv ⟨true, [], [], []⟩).1
    (getDataCore cexEnv ⟨true, [], [], []⟩).2 List.nodup_nil rfl

/-! ### Claim C9: idempotence of polling with a live session -/

theorem getDataCore_snd_auth (env : PollEnv) (st : ApiState) :
    ((getDataCore env st).2).authenticated = st.authenticated := by
  unfold getDataCore
  simp only []
  by_cases hempty : st.locationIds.isEmpty = true
  · simp only [hempty, if_true]
    by_cases h2 : ((extractLocationIds env.dashboard st).1).isEmpty = true
    · simp only [h2, if_true]
      exact (extract_preserves env.dashboard st).1
    · simp only [h2, Bool.false_eq_true, if_false]
      exact (extract_preserves env.dashboard st).1
  · have hstF : st.locationIds.isEmpty = false := by simpa using hempty
    simp only [hstF, Bool.false_eq_true, if_false]

theorem getDataCore_fst_idem (env : PollEnv) (st : ApiState) :
    (getDataCore env ((getDataCore env st).2)).1 = (getDataCore env st).1 := by
  by_cases hempty : st.locationIds.isEmpty = true
  · have hsnd : (getDataCore env st).2 =
        { (extractLocationIds env.dashboard st).2 with
          locationIds := (extractLocationIds env.dashboard st).1 } := by
      unfold getDataCore
      by_cases h2 : ((extractLocationIds env.dashboard st).1).isEmpty = true
      · simp only [hempty, if_true, h2]
      · simp only [hempty, if_true, h2, Bool.false_eq_true, if_false]
    rw [hsnd]
    by_cases h2 : ((extractLocationIds env.dashboard st).1).isEmpty = true
    · have he := extract_fst_eq env.dashboard
        { (extractLocationIds env.dashboard st).2 with
          locationIds := (extractLocationIds env.dashboard st).1 } st
      unfold getDataCore
      simp only [hempty, if_true, h2, he]
    · unfold getDataCore
      simp only [hempty, if_true, h2, Bool.false_eq_true, if_false]
  · have hstF : st.locationIds.isEmpty = false := by simpa using hempty
    have hsnd : (getDataCore env st).2 = st := by
      unfold getDataCore
      simp only [hstF, Bool.false_eq_true, if_false]
    rw [hsnd]

/-- C9: with a live session, polling twice against unchanged upstream
responses yields structurally identical snapshots (the whole `Snapshot`,
hence `location_count`, the summary fields and every per-location field,
is equal). -/
theorem poll_idempotent (env : PollEnv) (st : ApiState)
    (hauth : st.authenticated = true) (snap : Snapshot) (st1 : ApiState)
    (h : getData env st = .ok (snap, st1)) :
    ∃ st2, getData env st1 = .ok (snap, st2) := by
  unfold getData at h
  rw [if_pos hauth] at h
  have hinj := Except.ok.inj h
  have hsnap : snap = (getDataCore env st).1 := by rw [hinj]
  have hst1 : st1 = (getDataCore env st).2 := by rw [hinj]
  have hauth1 : st1.authenticated = true := by
    rw [hst1, getDataCore_snd_auth]; exact hauth
  refine ⟨(getDataCore env st1).2, ?_⟩
  unfold getData
  rw [if_pos hauth1]
  have hfst : (getDataCore env st1).1 = snap := by
    rw [hst1, getDataCore_fst_idem, ← hsnap]
  rw [← hfst]

/-- Witness for C9: polling the concrete environment a second time from
the state the first poll left behind returns the first poll's snapshot. -/
theorem poll_idempotent_witness :
    ∃ st2, getData cexEnv (getDataCore cexEnv ⟨true, [], [], []⟩).2 =
      .ok ((getDataCore cexEnv ⟨true, [], [], []⟩).1, st2) :=
  poll_idempotent cexEnv ⟨true, [], [], []⟩ rfl
    (getDataCore cexEnv ⟨true, [], [], []⟩).1
    (getDataCore cexEnv ⟨true, [], [], []⟩).2 rfl

/-! ### Claim C5: interpretation of the login POST -/

/-- C5: given the login-page GET succeeded (status 200), `authenticate`
returns `true` iff the POST status is the expected redirect (302, §6 wire
contract) and the session cookie jar afterwards contains the `adminis`
cookie; in every other case — redirect without the cookie, or any
non-redirect status — it returns `false` without raising. -/
theorem authenticate_result (gck pck : List (String × String)) (ps : Nat)
    (st : ApiState) :
    (authenticate ⟨.ok (200, gck), .ok (ps, pck)⟩ st =
        .ok (true, { st with
          cookies := dictSetAll (dictSetAll st.cookies gck) pck
          authenticated := true }) ↔
      (ps = 302 ∧
        hasKey (dictSetAll (dictSetAll st.cookies gck) pck) adminisCookie
          = true)) ∧
    (¬(ps = 302 ∧
        hasKey (dictSetAll (dictSetAll st.cookies gck) pck) adminisCookie
          = true) →
      authenticate ⟨.ok (200, gck), .ok (ps, pck)⟩ st =
        .ok (false,
          { st with cookies := dictSetAll (dictSetAll st.cookies gck) pck })) := by
  unfold authenticate
  simp only [ne_eq, not_true_eq_false, if_false, reduceIte]
  by_cases hps : ps = 302
  · by_cases hck : hasKey (dictSetAll (dictSetAll st.cookies gck) pck)
        adminisCookie = true
    · simp [hps, hck]
    · simp [hps, hck]
  · simp [hps]

/-- Witness for C5 at the spec's two scenarios: a 302 with cookie
`adminis=abc123` authenticates; a 200 yields `false` without raising. -/
theorem authenticate_result_witness :
    authenticate ⟨.ok (200, []), .ok (302, [(adminisCookie, "abc123")])⟩
        ⟨false, [], [], []⟩ =
      .ok (true, { (⟨false, [], [], []⟩ : ApiState) with
        cookies := dictSetAll (dictSetAll ([] : List (String × String)) [])
          [(adminisCookie, "abc123")]
        authenticated := true }) ∧
    authenticate ⟨.ok (200, []), .ok (200, [])⟩ ⟨false, [], [], []⟩ =
      .ok (false, { (⟨false, [], [], []⟩ : ApiState) with
        cookies := dictSetAll (dictSetAll ([] : List (String × String)) []) []
        }) :=
  ⟨(authenticate_result [] [(adminisCookie, "abc123")] 302
      ⟨false, [], [], []⟩).1.mpr ⟨rfl, by decide⟩,
    (authenticate_result [] [] 200 ⟨false, [], [], []⟩).2 (by decide)⟩

/-! ### Claim C10: amount conversion failure nulls a fetched history -/

/-- C10: when no earlier location has supplied a last-payment candidate,
a successfully fetched history whose first record's `amount` cannot be
converted by `float` ends with the location's `payment_history` field
`None` (the exception raised after the assignment is caught and overwrites
it); when the `amount` key is absent entirely, the candidate amount
defaults to `0.0` and the field keeps the fetched value. -/
theorem history_amount_conversion_failure
    (env : PollEnv) (info : List (Str × LocationInfo)) (locId : Str)
    (j : JValue) (kvs : List (Str × JValue)) (it0 : JValue)
    (items : List JValue) (rkvs : List (Str × JValue))
    (hfetch : env.history locId = .ok j)
    (hj : j = .obj kvs)
    (hres : lookupStr kvs resultsKey = some (.arr (it0 :: items)))
    (hit : it0 = .obj rkvs) :
    (∀ av, lookupStr rkvs amountKey = some av → pyFloat av = none →
      (processLocation env info none locId).1.payment_history = none) ∧
    (lookupStr rkvs amountKey = none →
      (processLocation env info none locId).1.payment_history = some j ∧
      (processLocation env info none locId).2 =
        some ⟨0, (lookupStr rkvs dateKey).getD (.str []), locId⟩) := by
  subst hj
  subst hit
  constructor
  · intro av hav hfl
    simp [processLocation, historyBookkeep, hfetch, jGetE, jGetD, jTruthy,
      jLen, jIndex0, hres, hav, hfl, Nat.succ_pos]
  · intro hnone
    refine ⟨?_, ?_⟩ <;>
      simp [processLocation, historyBookkeep, hfetch, jGetE, jGetD, jTruthy,
        jLen, jIndex0, hres, hnone, pyFloat, Nat.succ_pos]

def abcStr : Str := "abc".data
def dateLit : Str := "30.01.2026".data
def loc16835 : Str := "16835".data
def loc17012 : Str := "17012".data

/-- A history body whose first record has a non-numeric amount. -/
def c10Json : JValue :=
  .obj [(resultsKey, .arr [.obj [(amountKey, .str abcStr), (dateKey, .str dateLit)]])]

def c10Env : PollEnv := { cexEnv with history := fun _ => .ok c10Json }

/-- Witness for C10: concretely, the fetched history with amount `"abc"`
ends up recorded as `None`. -/
theorem history_amount_conversion_failure_witness :
    (processLocation c10Env [] none loc16835).1.payment_history = none :=
  (history_amount_conversion_failure c10Env [] loc16835 c10Json
    [(resultsKey, .arr [.obj [(amountKey, .str abcStr), (dateKey, .str dateLit)]])]
    (.obj [(amountKey, .str abcStr), (dateKey, .str dateLit)]) []
    [(amountKey, .str abcStr), (dateKey, .str dateLit)]
    rfl rfl rfl rfl).1 (.str abcStr) rfl rfl

/-! ### Resource taxonomy and wire-shape predicates (spec section 6) -/

inductive Resource where
  | pending : Resource
  | history : Resource
  | counters : Resource
deriving DecidableEq

def fetchOf (env : PollEnv) : Resource → Str → Except Unit JValue
  | .pending => env.pending
  | .history => env.history
  | .counters => env.counters

def resField (entry : LocationSnapshot) : Resource → Option JValue
  | .pending => entry.pending_payments
  | .history => entry.payment_history
  | .counters => entry.counters

/-- A pending-payments body of the documented shape: an object whose
`results` value, when present and truthy, is itself an object. -/
def pendingShaped (j : JValue) : Prop :=
  ∃ kvs, j = .obj kvs ∧ ∀ res, lookupStr kvs resultsKey = some res →
    jTruthy res = true → ∃ rkvs, res = .obj rkvs

/-- A payment record of the documented shape: an object whose `amount`
value, when present, converts under `float`. -/
def recordShaped (it : JValue) : Prop :=
  ∃ rkvs, it = .obj rkvs ∧ ∀ av, lookupStr rkvs amountKey = some av →
    (pyFloat av).isSome = true

/-- A payment-history body of the documented shape: an object whose
`results` value, when present and truthy, is an array of shaped records. -/
def historyShaped (j : JValue) : Prop :=
  ∃ kvs, j = .obj kvs ∧ ∀ res, lookupStr kvs resultsKey = some res →
    jTruthy res = true →
      ∃ items, res = .arr items ∧ ∀ it ∈ items, recordShaped it

def shapedFor : Resource → JValue → Prop
  | .pending => pendingShaped
  | .history => historyShaped
  | .counters => fun _ => True

theorem pendingField_shaped {j : JValue} (h : pendingShaped j) :
    pendingField (.ok j) = some j := by
  obtain ⟨kvs, rfl, hres⟩ := h
  unfold pendingField jGetE
  simp only []
  rcases hl : lookupStr kvs resultsKey with _ | res
  · simp [hl, jTruthy]
  · by_cases ht : jTruthy res = true
    · obtain ⟨rkvs, rfl⟩ := hres res hl ht
      simp only [hl, Option.getD_some, ht, if_true]
      split <;> simp
    · simp [hl, ht]

theorem historyBookkeep_ok {j : JValue} (h : historyShaped j)
    (lp : Option LastPayment) (locId : Str) :
    ∃ lp2, historyBookkeep j lp locId = .ok lp2 := by
  obtain ⟨kvs, rfl, hres⟩ := h
  unfold historyBookkeep jGetE
  simp only []
  rcases hl : lookupStr kvs resultsKey with _ | res
  · simp [hl, jTruthy]
  · by_cases ht : jTruthy res = true
    · obtain ⟨items, rfl, hrec⟩ := hres res hl ht
      simp only [hl, Option.getD_some, ht, if_true, jLen]
      rcases items with _ | ⟨it0, rest⟩
      · simp [jTruthy] at ht
      · simp only [List.length_cons, Nat.succ_pos, if_true, jIndex0]
        rcases lp with _ | x
        · obtain ⟨rkvs, rfl, hamt⟩ := hrec it0 (by simp)
          simp only [jGetD]
          rcases ha : lookupStr rkvs amountKey with _ | av
          · simp [ha, pyFloat]
          · have hsome := hamt av ha
            rcases hf : pyFloat av with _ | q
            · rw [hf] at hsome; simp at hsome
            · simp [ha, hf]
        · simp
    · simp [hl, ht]

theorem entry_pending (env : PollEnv) (info : List (Str × LocationInfo))
    (lp : Option LastPayment) (locId : Str) :
    (processLocation env info lp locId).1.pending_payments =
      pendingField (env.pending locId) := rfl

theorem entry_counters (env : PollEnv) (info : List (Str × LocationInfo))
    (lp : Option LastPayment) (locId : Str) :
    (processLocation env info lp locId).1.counters =
      (match env.counters locId with
        | .error _ => none
        | .ok j => some j) := rfl

theorem entry_history (env : PollEnv) (info : List (Str × LocationInfo))
    (lp : Option LastPayment) (locId : Str) :
    (processLocation env info lp locId).1.payment_history =
      (match env.history locId with
        | .error _ => none
        | .ok j =>
          match historyBookkeep j lp locId with
          | .error _ => none
          | .ok _ => some j) := by
  unfold processLocation
  simp only []
  rcases env.history locId with e | j
  · rfl
  · cases hb : historyBookkeep j lp locId <;> simp [hb]

theorem processLocation_fst_lpIndep (env : PollEnv)
    (info : List (Str × LocationInfo)) (locId : Str)
    (hsafe : ∀ j, env.history locId = .ok j → historyShaped j)
    (lp : Option LastPayment) :
    (processLocation env info lp locId).1 =
      (processLocation env info none locId).1 := by
  unfold processLocation
  simp only []
  rcases hh : env.history locId with e | j
  · rfl
  · obtain ⟨lp1, h1⟩ := historyBookkeep_ok (hsafe j hh) lp locId
    obtain ⟨lp2, h2⟩ := historyBookkeep_ok (hsafe j hh) none locId
    simp [h1, h2]

theorem lookupD_map_overwrite {κ α : Type} [DecidableEq κ]
    (m : List (κ × α)) (k i : κ) (v : α) (h : i ≠ k) :
    lookupD (m.map (fun p => if p.1 = k then (k, v) else p)) i = lookupD m i := by
  induction m with
  | nil => rfl
  | cons p rest ih =>
    obtain ⟨k2, v2⟩ := p
    by_cases hk : k2 = k
    · subst hk
      simp only [List.map_cons, if_true]
      rw [lookupD, lookupD, if_neg (Ne.symm h), if_neg (Ne.symm h)]
      exact ih
    · simp only [List.map_cons, if_neg hk]
      rw [lookupD, lookupD]
      by_cases h2 : k2 = i
      · simp [h2]
      · rw [if_neg h2, if_neg h2]
        exact ih

theorem lookupD_dictSet_other {κ α : Type} [DecidableEq κ]
    (m : List (κ × α)) (k i : κ) (v : α) (h : i ≠ k) :
    lookupD (dictSet m k v) i = lookupD m i := by
  unfold dictSet
  split
  · exact lookupD_map_overwrite m k i v h
  · exact lookupD_append_other m k i v h

theorem processAll_lookupD_not_mem (env : PollEnv)
    (info : List (Str × LocationInfo)) :
    ∀ (ids : List Str) (acc : List (Str × LocationSnapshot))
      (lp : Option LastPayment) (x : Str), x ∉ ids →
      lookupD ((processAll env info ids acc lp).1) x = lookupD acc x := by
  intro ids
  induction ids with
  | nil => intro acc lp x _; rfl
  | cons locId rest ih =>
    intro acc lp x hx
    rw [processAll]
    have hxid : x ≠ locId := fun heq => hx (heq ▸ List.mem_cons_self _ _)
    have hxrest : x ∉ rest := fun hmem => hx (List.mem_cons_of_mem _ hmem)
    rw [ih _ _ x hxrest, lookupD_dictSet_other _ _ _ _ hxid]

theorem processAll_lookup (env : PollEnv) (info : List (Str × LocationInfo)) :
    ∀ (ids : List Str) (acc : List (Str × LocationSnapshot))
      (lp : Option LastPayment) (x : Str), ids.Nodup →
      (∀ i ∈ ids, hasKey acc i = false) →
      (∀ i ∈ ids, ∀ j, env.history i = .ok j → historyShaped j) →
      x ∈ ids →
      lookupD ((processAll env info ids acc lp).1) x =
        some (processLocation env info none x).1 := by
  intro ids
  induction ids with
  | nil => intro acc lp x _ _ _ hmem; cases hmem
  | cons locId rest ih =>
    intro acc lp x hnd hfresh hsafe hmem
    rw [processAll]
    have hk : hasKey acc locId = false := hfresh locId (List.mem_cons_self _ _)
    have hnd2 := List.nodup_cons.mp hnd
    rcases List.mem_cons.mp hmem with rfl | hmem2
    · rw [processAll_lookupD_not_mem env info rest _ _ x hnd2.1]
      rw [dictSet_fresh _ hk, lookupD_append_fresh _ hk]
      congr 1
      exact processLocation_fst_lpIndep env info x
        (hsafe x (List.mem_cons_self _ _)) lp
    · refine ih _ _ x hnd2.2 ?_ (fun i hi => hsafe i (List.mem_cons_of_mem _ hi))
        hmem2
      intro i hi
      rw [dictSet_fresh _ hk, hasKey_append]
      have hil : i ≠ locId := fun heq => hnd2.1 (heq ▸ hi)
      simp [hfresh i (List.mem_cons_of_mem _ hi), hasKey_single _ _ _ hil]

/-! ### Claim C3: a single failing fetch is isolated -/

/-- C3: over N discovered locations, when exactly one of the three
resource fetches fails for one location and every other fetch succeeds
with a body of the documented shape, the poll does not raise, the snapshot
has entries for all N locations, the failing resource field of the
affected location is null, and every other resource field holds the
fetched value. -/
theorem single_fetch_failure_isolated (env : PollEnv) (st : ApiState)
    (ids : List Str) (t : Str) (r : Resource)
    (hauth : st.authenticated = true)
    (hids : st.locationIds = ids)
    (hne : ids ≠ [])
    (hnd : ids.Nodup)
    (ht : t ∈ ids)
    (hfail : fetchOf env r t = .error ())
    (hok : ∀ ℓ ∈ ids, ∀ r2 : Resource, ¬(ℓ = t ∧ r2 = r) →
      ∃ j, fetchOf env r2 ℓ = .ok j ∧ shapedFor r2 j) :
    ∃ snap st2, getData env st = .ok (snap, st2) ∧
      snap.locations.length = ids.length ∧
      ∀ ℓ ∈ ids, ∃ entry, lookupD snap.locations ℓ = some entry ∧
        (∀ r2 : Resource, ℓ = t ∧ r2 = r → resField entry r2 = none) ∧
        (∀ r2 : Resource, ¬(ℓ = t ∧ r2 = r) → ∀ j,
          fetchOf env r2 ℓ = .ok j → resField entry r2 = some j) := by
  subst hids
  have hne2 : st.locationIds.isEmpty = false := by
    rcases hl : st.locationIds with _ | ⟨a, l⟩
    · exact absurd hl hne
    · rfl
  have hsafe : ∀ i ∈ st.locationIds, ∀ j, env.history i = .ok j →
      historyShaped j := by
    intro i hi j hj
    by_cases hit : i = t ∧ Resource.history = r
    · exfalso
      obtain ⟨rfl, hr⟩ := hit
      rw [← hr] at hfail
      have hfail2 : env.history i = Except.error () := hfail
      rw [hj] at hfail2
      cases hfail2
    · obtain ⟨j0, hj0, hs0⟩ := hok i hi Resource.history hit
      have hj0' : env.history i = .ok j0 := hj0
      rw [hj] at hj0'
      have hjj := Except.ok.inj hj0'
      rw [hjj]
      exact hs0
  unfold getData
  rw [if_pos hauth]
  unfold getDataCore
  simp only [hne2, Bool.false_eq_true, if_false]
  refine ⟨_, _, rfl, ?_, ?_⟩
  · have hlen := processAll_length env st.locationInfo st.locationIds [] none
      hnd (fun i _ => rfl)
    simpa using hlen
  · intro ℓ hmem
    have hlook := processAll_lookup env st.locationInfo st.locationIds [] none
      ℓ hnd (fun i _ => rfl) hsafe hmem
    refine ⟨(processLocation env st.locationInfo none ℓ).1, hlook, ?_, ?_⟩
    · intro r2 hcond
      rw [hcond.2]
      cases r
      · show (processLocation env st.locationInfo none ℓ).1.pending_payments
          = none
        rw [entry_pending]
        have hp : env.pending ℓ = .error () := by rw [hcond.1]; exact hfail
        rw [hp]
        rfl
      · show (processLocation env st.locationInfo none ℓ).1.payment_history
          = none
        rw [entry_history]
        have hp : env.history ℓ = .error () := by rw [hcond.1]; exact hfail
        rw [hp]
      · show (processLocation env st.locationInfo none ℓ).1.counters = none
        rw [entry_counters]
        have hp : env.counters ℓ = .error () := by rw [hcond.1]; exact hfail
        rw [hp]
    · intro r2 hne12 j hj
      obtain ⟨j0, hj0, hs0⟩ := hok ℓ hmem r2 hne12
      cases r2
      · show (processLocation env st.locationInfo none ℓ).1.pending_payments
          = some j
        rw [entry_pending]
        have hp : env.pending ℓ = .ok j := hj
        have hj0' : env.pending ℓ = .ok j0 := hj0
        rw [hp] at hj0'
        rw [hp, Except.ok.inj hj0']
        exact pendingField_shaped hs0
      · show (processLocation env st.locationInfo none ℓ).1.payment_history
          = some j
        rw [entry_history]
        have hp : env.history ℓ = .ok j := hj
        have hj0' : env.history ℓ = .ok j0 := hj0
        rw [hp] at hj0'
        obtain ⟨lp2, hbk⟩ := historyBookkeep_ok
          ((Except.ok.inj hj0') ▸ hs0) none ℓ
        rw [hp]
        simp [hbk]
      · show (processLocation env st.locationInfo none ℓ).1.counters = some j
        rw [entry_counters]
        have hp : env.counters ℓ = .ok j := hj
        rw [hp]

/-- The documented pending-payments body (`results` holding null owner and
assoc entries). -/
def c3Pending : JValue :=
  .obj [(resultsKey, .obj [(ownerKey, .null), (assocKey, .null)])]

/-- A history body with no records. -/
def c3Hist : JValue := .obj [(resultsKey, .arr [])]

def c3Env : PollEnv :=
  { auth := cexAuthFalse
    dashboard := .error ()
    pending := fun _ => .ok c3Pending
    history := fun _ => .ok c3Hist
    counters := fun i => if i = loc16835 then .error () else .ok (.obj []) }

def c3St : ApiState := ⟨true, [loc16835, loc17012], [], []⟩

theorem c3Pending_shaped : pendingShaped c3Pending := by
  refine ⟨[(resultsKey, .obj [(ownerKey, .null), (assocKey, .null)])], rfl, ?_⟩
  intro res hres htr
  injection hres with h
  exact ⟨[(ownerKey, .null), (assocKey, .null)], h.symm⟩

theorem c3Hist_shaped : historyShaped c3Hist := by
  refine ⟨[(resultsKey, .arr [])], rfl, ?_⟩
  intro res hres htr
  injection hres with h
  refine ⟨[], h.symm, ?_⟩
  intro it hit
  cases hit

/-- Witness for C3: two locations, the counters fetch failing for the
first; the snapshot keeps both locations, nulls only that field and
stores every other fetched body. -/
theorem single_fetch_failure_isolated_witness :
    ∃ snap st2, getData c3Env c3St = .ok (snap, st2) ∧
      snap.locations.length = [loc16835, loc17012].length ∧
      ∀ ℓ ∈ [loc16835, loc17012], ∃ entry,
        lookupD snap.locations ℓ = some entry ∧
        (∀ r2 : Resource, ℓ = loc16835 ∧ r2 = .counters →
          resField entry r2 = none) ∧
        (∀ r2 : Resource, ¬(ℓ = loc16835 ∧ r2 = .counters) → ∀ j,
          fetchOf c3Env r2 ℓ = .ok j → resField entry r2 = some j) :=
  single_fetch_failure_isolated c3Env c3St [loc16835, loc17012] loc16835
    .counters rfl rfl (by decide) (by decide) (by decide) rfl
    (by
      intro ℓ hℓ r2 hne12
      rcases List.mem_cons.mp hℓ with rfl | hℓ2
      · cases r2
        · exact ⟨c3Pending, rfl, c3Pending_shaped⟩
        · exact ⟨c3Hist, rfl, c3Hist_shaped⟩
        · exact absurd ⟨rfl, rfl⟩ hne12
      · rcases List.mem_cons.mp hℓ2 with rfl | hℓ3
        · cases r2
          · exact ⟨c3Pending, rfl, c3Pending_shaped⟩
          · exact ⟨c3Hist, rfl, c3Hist_shaped⟩
          · exact ⟨.obj [], rfl, trivial⟩
        · cases hℓ3)

/-! ### Claim C4: the last-payment candidate -/

/-- The records a history body carries (its `results` array, if any). -/
def histRecords (j : JValue) : List JValue :=
  match j with
  | .obj kvs =>
    match lookupStr kvs resultsKey with
    | some (.arr items) => items
    | _ => []
  | _ => []

/-- Modelled from the spec's wording: the first location, in discovery
order, whose payment-history fetch succeeded with at least one record,
together with that first record. -/
def firstHistoryCandidate (env : PollEnv) : List Str → Option (Str × JValue)
  | [] => none
  | ℓ :: rest =>
    match env.history ℓ with
    | .ok j =>
      match histRecords j with
      | [] => firstHistoryCandidate env rest
      | it :: _ => some (ℓ, it)
    | .error _ => firstHistoryCandidate env rest

/-- Once set, the candidate is never replaced (`if not last_payment`). -/
theorem historyBookkeep_some (j : JValue) (x : LastPayment) (locId : Str) :
    historyBookkeep j (some x) locId = .error () ∨
    historyBookkeep j (some x) locId = .ok (some x) := by
  unfold historyBookkeep jGetE
  rcases j with _ | b | q | cs | xs | kvs
  · exact Or.inl rfl
  · exact Or.inl rfl
  · exact Or.inl rfl
  · exact Or.inl rfl
  · exact Or.inl rfl
  · simp only []
    rcases hl : lookupStr kvs resultsKey with _ | res
    · simp [jTruthy]
    · by_cases htr : jTruthy res = true
      · simp only [Option.getD_some, htr, if_true]
        rcases hlen : jLen res with e | n
        · exact Or.inl rfl
        · simp only []
          by_cases hn : n > 0
          · simp only [hn, if_true]
            rcases hidx : jIndex0 res with e | latest
            · exact Or.inl rfl
            · exact Or.inr rfl
          · simp [hn]
      · simp [htr]

theorem processLocation_snd_some (env : PollEnv)
    (info : List (Str × LocationInfo)) (locId : Str) (x : LastPayment) :
    (processLocation env info (some x) locId).2 = some x := by
  unfold processLocation
  simp only []
  rcases hh : env.history locId with e | j
  · rfl
  · rcases historyBookkeep_some j x locId with hb | hb <;> simp [hb]

theorem processAll_snd_some (env : PollEnv)
    (info : List (Str × LocationInfo)) :
    ∀ (ids : List Str) (acc : List (Str × LocationSnapshot))
      (x : LastPayment), (processAll env info ids acc (some x)).2 = some x := by
  intro ids
  induction ids with
  | nil => intro acc x; rfl
  | cons locId rest ih =>
    intro acc x
    rw [processAll]
    rw [processLocation_snd_some]
    exact ih _ x

/-- What the loop's last-payment accumulator ends as: the value described
by `firstHistoryCandidate`, provided every successfully fetched history
body is of the documented shape. -/
theorem processAll_snd_candidate (env : PollEnv)
    (info : List (Str × LocationInfo)) :
    ∀ (ids : List Str) (acc : List (Str × LocationSnapshot)),
      (∀ i ∈ ids, ∀ j, env.history i = .ok j → historyShaped j) →
      ((firstHistoryCandidate env ids = none →
        (processAll env info ids acc none).2 = none) ∧
      (∀ ℓ it, firstHistoryCandidate env ids = some (ℓ, it) →
        ∃ rkvs q, it = .obj rkvs ∧
          pyFloat ((lookupStr rkvs amountKey).getD (.num 0)) = some q ∧
          (processAll env info ids acc none).2 =
            some ⟨q, (lookupStr rkvs dateKey).getD (.str []), ℓ⟩)) := by
  intro ids
  induction ids with
  | nil =>
    intro acc _
    exact ⟨fun _ => rfl, fun ℓ it h => by cases h⟩
  | cons ℓ0 rest ih =>
    intro acc hsafe
    have hsafe2 : ∀ i ∈ rest, ∀ j, env.history i = .ok j → historyShaped j :=
      fun i hi => hsafe i (List.mem_cons_of_mem _ hi)
    rw [processAll, firstHistoryCandidate]
    rcases hh : env.history ℓ0 with e | j
    · have hpl : (processLocation env info none ℓ0).2 = none := by
        unfold processLocation
        simp [hh]
      simp only [hh, hpl]
      exact ih _ hsafe2
    · have hs := hsafe ℓ0 (List.mem_cons_self _ _) j hh
      obtain ⟨kvs, rfl, hres⟩ := hs
      rcases hl : lookupStr kvs resultsKey with _ | res
      · have hrecs : histRecords (.obj kvs) = [] := by
          simp [histRecords, hl]
        have hpl : (processLocation env info none ℓ0).2 = none := by
          unfold processLocation
          simp [hh, historyBookkeep, jGetE, hl, jTruthy]
        simp only [hh, hrecs, hpl]
        exact ih _ hsafe2
      · by_cases htr : jTruthy res = true
        · obtain ⟨items, rfl, hrec⟩ := hres res hl htr
          rcases items with _ | ⟨it0, restIt⟩
          · simp [jTruthy] at htr
          · obtain ⟨rkvs, hit0, hamt⟩ := hrec it0 (List.mem_cons_self _ _)
            have hq : ∃ q, pyFloat ((lookupStr rkvs amountKey).getD (.num 0))
                = some q := by
              rcases ha : lookupStr rkvs amountKey with _ | av
              · exact ⟨0, rfl⟩
              · have hsome := hamt av ha
                rcases hf : pyFloat av with _ | q
                · rw [hf] at hsome; simp at hsome
                · exact ⟨q, by simp [ha, hf]⟩
            obtain ⟨q, hqe⟩ := hq
            have hpl : (processLocation env info none ℓ0).2 =
                some ⟨q, (lookupStr rkvs dateKey).getD (.str []), ℓ0⟩ := by
              unfold processLocation
              simp [hh, historyBookkeep, jGetE, jGetD, hl, htr, jLen,
                jIndex0, hit0, hqe, Nat.succ_pos, jTruthy]
            have hrecs : histRecords (.obj kvs) = it0 :: restIt := by
              simp [histRecords, hl]
            simp only [hh, hrecs, hpl]
            constructor
            · intro hcand; cases hcand
            · intro ℓ it hcand
              injection hcand with h1
              injection h1 with h2 h3
              subst h2; subst h3
              exact ⟨rkvs, q, hit0, hqe, processAll_snd_some env info rest _ _⟩
        · have hrecs : histRecords (.obj kvs) = [] := by
            simp only [histRecords, hl]
            rcases res with _ | b | q2 | cs | xs | kvs2 <;> try rfl
            have hxs : xs = [] := by
              simp [jTruthy] at htr
              exact htr
            simp [hxs]
          have hpl : (processLocation env info none ℓ0).2 = none := by
            unfold processLocation
            simp [hh, historyBookkeep, jGetE, hl, htr]
          simp only [hh, hrecs, hpl]
          exact ih _ hsafe2

/-- C4: the summary's last-payment fields come from the first record of
the first location, in discovery order, whose payment-history fetch
succeeded with at least one record — not from a maximum-by-date across
locations.  The amount is `float` of the record's `amount` (default 0),
the date is the record's `date` (default empty string), and the owning
location id is attached. -/
theorem last_payment_first_candidate (env : PollEnv) (st : ApiState)
    (ids : List Str)
    (hauth : st.authenticated = true)
    (hids : st.locationIds = ids)
    (hne : ids ≠ [])
    (hsafe : ∀ i ∈ ids, ∀ j, env.history i = .ok j → historyShaped j) :
    ∃ snap st2, getData env st = .ok (snap, st2) ∧
      (firstHistoryCandidate env ids = none →
        snap.summary.lastPayment = none) ∧
      (∀ ℓ it, firstHistoryCandidate env ids = some (ℓ, it) →
        ∃ rkvs q, it = .obj rkvs ∧
          pyFloat ((lookupStr rkvs amountKey).getD (.num 0)) = some q ∧
          snap.summary.lastPayment =
            some ⟨q, (lookupStr rkvs dateKey).getD (.str []), ℓ⟩) := by
  subst hids
  have hne2 : st.locationIds.isEmpty = false := by
    rcases hl : st.locationIds with _ | ⟨a, l⟩
    · exact absurd hl hne
    · rfl
  unfold getData
  rw [if_pos hauth]
  unfold getDataCore
  simp only [hne2, Bool.false_eq_true, if_false]
  refine ⟨_, _, rfl, ?_, ?_⟩
  · intro hcand
    exact (processAll_snd_candidate env st.locationInfo st.locationIds []
      hsafe).1 hcand
  · intro ℓ it hcand
    exact (processAll_snd_candidate env st.locationInfo st.locationIds []
      hsafe).2 ℓ it hcand

def amt86212 : Str := "862.12".data

def c4Record : JValue := .obj [(amountKey, .str amt86212), (dateKey, .str dateLit)]

def c4Hist16835 : JValue := .obj [(resultsKey, .arr [c4Record])]

def c4Env : PollEnv :=
  { auth := cexAuthFalse
    dashboard := .error ()
    pending := fun _ => .error ()
    history := fun i => if i = loc16835 then .ok c4Hist16835 else .ok c3Hist
    counters := fun _ => .error () }

def c4St : ApiState := ⟨true, [loc16835, loc17012], [], []⟩

theorem c4Hist_shaped : historyShaped c4Hist16835 := by
  refine ⟨[(resultsKey, .arr [c4Record])], rfl, ?_⟩
  intro res hres htr
  injection hres with h
  refine ⟨[c4Record], h.symm, ?_⟩
  intro it hit
  rcases List.mem_cons.mp hit with rfl | hit2
  · refine ⟨[(amountKey, .str amt86212), (dateKey, .str dateLit)], rfl, ?_⟩
    intro av hav
    injection hav with h2
    rw [← h2]
    decide
  · cases hit2

/-- The last-payment candidate a poll result carries. -/
def summLP (x : Except Unit (Snapshot × ApiState)) : Option LastPayment :=
  match x with
  | .ok (snap, _) => snap.summary.lastPayment
  | .error _ => none

/-- `float("862.12")` is exactly 862.12. -/
theorem pyFloat_86212 : pyFloat (.str amt86212) = some (86212 / 100) := by
  show parseDecimal (pyStrip amt86212) = some (86212 / 100)
  have h1 : pyStrip amt86212 = amt86212 := rfl
  rw [h1]
  have h2 : parseDecimal amt86212 =
      some (((862 : ℕ) : ℚ) + ((12 : ℕ) : ℚ) / (10 : ℚ) ^ (2 : ℕ)) := rfl
  rw [h2]
  norm_num

/-- Witness for C4: the spec's scenario — location 16835 has one record
with amount `"862.12"` and date `"30.01.2026"`, location 17012 has empty
results — yields the candidate from 16835's first record: the snapshot's
last-payment date is `"30.01.2026"`, its location id `"16835"`, and the
record's amount converts to exactly 862.12. -/
theorem last_payment_first_candidate_witness :
    (∃ snap st2, getData c4Env c4St = .ok (snap, st2) ∧
      (firstHistoryCandidate c4Env [loc16835, loc17012] = none →
        snap.summary.lastPayment = none) ∧
      (∀ ℓ it, firstHistoryCandidate c4Env [loc16835, loc17012]
          = some (ℓ, it) →
        ∃ rkvs q, it = .obj rkvs ∧
          pyFloat ((lookupStr rkvs amountKey).getD (.num 0)) = some q ∧
          snap.summary.lastPayment =
            some ⟨q, (lookupStr rkvs dateKey).getD (.str []), ℓ⟩)) ∧
    (summLP (getData c4Env c4St)).map LastPayment.date
      = some (.str dateLit) ∧
    (summLP (getData c4Env c4St)).map LastPayment.location_id
      = some loc16835 ∧
    pyFloat (.str amt86212) = some (86212 / 100) :=
  ⟨last_payment_first_candidate c4Env c4St [loc16835, loc17012] rfl rfl
    (by decide)
    (by
      intro i hi j hj
      rcases List.mem_cons.mp hi with rfl | hi2
      · have hif : c4Env.history loc16835 = Except.ok c4Hist16835 := by
          simp [c4Env]
        rw [hif] at hj
        injection hj with h
        rw [← h]
        exact c4Hist_shaped
      · rcases List.mem_cons.mp hi2 with rfl | hi3
        · have hne12 : loc17012 ≠ loc16835 := by decide
          have hif : c4Env.history loc17012 = Except.ok c3Hist := by
            simp [c4Env, hne12]
          rw [hif] at hj
          injection hj with h
          rw [← h]
          exact c3Hist_shaped
        · cases hi3),
    by rfl, by rfl, pyFloat_86212⟩
